import Mathlib

/-
Verification of the sysjitter sampling engine (sysjitter.c, v1.4).

Shallow embedding conventions:
- Machine integers are modelled as Nat with explicit reduction modulo
  2 ^ 64 where the C code computes on uint64 values that can wrap, and
  modulo 2 ^ 32 where the comparator casts a uint64 to a 32-bit int.
- The hot loop of function doit runs one iteration per element of a list
  of cycle-counter reads; the length of that list models how many times
  the loop body runs before the shared command flag is observed as STOP.
- qsort is modelled as a stable comparison sort driven by the comparator
  qsort_cmp_interruption, placing a record no later than another exactly
  when the comparator returns a nonpositive value.
- The percentile indices, computed in C as (int)(n * 0.9) and so on with
  double arithmetic, are modelled as exact floors n * 9 / 10 and so on.
  For every count n below 2 ^ 32 the double computation agrees with the
  exact floor: the relative error of each rounded constant is below
  6e-17, far smaller than both the distance from n * p to the nearest
  integer when n * p is not integral (at least 1 / 100000) and the
  half-ulp of n * p when it is integral.
-/

namespace Sysjitter

/-- Modulus of 64-bit unsigned arithmetic, 2 to the power 64. -/
def w64 : Nat := 18446744073709551616

/-- Modulus of a 32-bit int, 2 to the power 32, used by the cast in the
qsort comparator. -/
def w32 : Nat := 4294967296

/-- Unsigned 64-bit subtraction a - b as computed on uint64 values. -/
def sub64 (a b : Nat) : Nat := (a % w64 + (w64 - b % w64)) % w64

/-- One recorded interruption, struct interruption in sysjitter.c:
the absolute cycle-counter value at detection and the gap since the
previous read. -/
structure interruption where
  ts : Nat
  diff : Nat
deriving DecidableEq, Repr

/-- The hot sampling loop, function doit (sysjitter.c lines 264-286).
Arguments: the successive cycle-counter reads seen by the loop, the read
that initialised prev_ts, the threshold in cycles, the buffer capacity
g.max_interruptions, and the buffer and running total accumulated so far.
Returns the recorded region of the buffer, that is the records between
t.interruptions and the final cursor t.c_interruption, together with the
final int_total.  A record is appended when the uint64 gap reaches the
threshold, and the loop breaks as soon as the buffer is full. -/
def doit : List Nat → Nat → Nat → Nat → List interruption → Nat →
    List interruption × Nat
  | [], _, _, _, buf, tot => (buf, tot)
  | ts :: reads, prev, thr, cap, buf, tot =>
    let d := sub64 ts prev
    if thr ≤ d then
      let buf2 := buf ++ [⟨ts, d⟩]
      let tot2 := (tot + d) % w64
      if buf2.length = cap then (buf2, tot2)
      else doit reads ts thr cap buf2 tot2
    else doit reads ts thr cap buf tot

/-- The stream of qualifying records determined by a read sequence: for
each read whose uint64 gap from the previous read reaches the threshold,
the record the loop would append.  This is the capacity-free
characterisation of what doit records. -/
def gap_stream : List Nat → Nat → Nat → List interruption
  | [], _, _ => []
  | ts :: reads, prev, thr =>
    let d := sub64 ts prev
    if thr ≤ d then ⟨ts, d⟩ :: gap_stream reads ts thr
    else gap_stream reads ts thr

/-- The qualifying records computed with plain natural subtraction, the
intended meaning of the gaps when the cycle counter never decreases. -/
def true_gap_stream : List Nat → Nat → Nat → List interruption
  | [], _, _ => []
  | ts :: reads, prev, thr =>
    if thr ≤ ts - prev then ⟨ts, ts - prev⟩ :: true_gap_stream reads ts thr
    else true_gap_stream reads ts thr

/-- Sum of the gap fields of a list of records. -/
def sum_diffs (l : List interruption) : Nat :=
  (l.map interruption.diff).sum

/-- Reinterpretation of the low 32 bits of a natural number as a signed
32-bit int, the gcc behaviour of the cast (int)x applied to a uint64. -/
def to_int32 (n : Nat) : Int :=
  if n % w32 < 2147483648 then (n % w32 : Int)
  else (n % w32 : Int) - (w32 : Int)

/-- The qsort comparator (sysjitter.c lines 331-336): the uint64
difference of the two gap fields, cast to int. -/
def qsort_cmp_interruption (a b : interruption) : Int :=
  to_int32 (sub64 a.diff b.diff)

/-- Boolean order driving the sort model: record a sorts no later than
record b when the comparator result is nonpositive. -/
def cmp_le (a b : interruption) : Bool :=
  decide (qsort_cmp_interruption a b ≤ 0)

/-- Comparison of records by gap value alone. -/
def gap_le (a b : interruption) : Bool :=
  decide (a.diff ≤ b.diff)

/-- Insertion of a record into a list, before the first element that the
given order does not place strictly earlier. -/
def insert_le (le : interruption → interruption → Bool) (x : interruption) :
    List interruption → List interruption
  | [] => [x]
  | y :: ys => if le x y then x :: y :: ys else y :: insert_le le x ys

/-- Stable insertion sort driven by a boolean order. -/
def sort_le (le : interruption → interruption → Bool) :
    List interruption → List interruption
  | [] => []
  | x :: xs => insert_le le x (sort_le le xs)

/-- Model of sort_interruptions (sysjitter.c lines 339-352): the sorted
pointer array is rebuilt from the recorded region and sorted by qsort
with comparator qsort_cmp_interruption. -/
def sort_interruptions (l : List interruption) : List interruption :=
  sort_le cmp_le l

/-- Modelled from the words of the specification, for comparison with
the sort the source performs: the records sorted ascending by gap size. -/
def spec_sorted_by_gap (l : List interruption) : List interruption :=
  sort_le gap_le l

/-- Worker thread state, struct thread in sysjitter.c.  The recorded
region between t.interruptions and t.c_interruption is modelled as the
list interruptions, which also models the cursor: the cursor position is
the length of the list. -/
structure thread where
  interruptions : List interruption
  frc_start : Nat
  frc_stop : Nat
  sorted : List interruption
  runtime : Nat
  int_n : Nat
  int_total : Nat
  int_min : Nat
  int_max : Nat
  int_mean : Nat
  int_median : Nat
  int_90 : Nat
  int_99 : Nat
  int_999 : Nat
  int_9999 : Nat
  int_99999 : Nat
deriving DecidableEq

/-- The statistics engine, function thread_calc_stats (sysjitter.c lines
355-388).  On a nonempty recorded region it sorts the records and reads
the order statistics at the truncated percentile indices; on an empty
region it zeroes every derived statistic.  The mean accumulates the gap
sum in wrapping uint64 arithmetic over the unsorted records, exactly as
the C loop does. -/
def thread_calc_stats (t : thread) : thread :=
  let n := t.interruptions.length
  if n ≠ 0 then
    let s := sort_interruptions t.interruptions
    { t with
      runtime := sub64 t.frc_stop t.frc_start,
      int_n := n,
      sorted := s,
      int_min := (s.getD 0 ⟨0, 0⟩).diff,
      int_max := (s.getD (n - 1) ⟨0, 0⟩).diff,
      int_median := (s.getD (n / 2) ⟨0, 0⟩).diff,
      int_90 := (s.getD (n * 9 / 10) ⟨0, 0⟩).diff,
      int_99 := (s.getD (n * 99 / 100) ⟨0, 0⟩).diff,
      int_999 := (s.getD (n * 999 / 1000) ⟨0, 0⟩).diff,
      int_9999 := (s.getD (n * 9999 / 10000) ⟨0, 0⟩).diff,
      int_99999 := (s.getD (n * 99999 / 100000) ⟨0, 0⟩).diff,
      int_mean := (t.interruptions.foldl (fun a r => (a + r.diff) % w64) 0) / n }
  else
    { t with
      runtime := sub64 t.frc_stop t.frc_start,
      int_n := 0,
      int_min := 0,
      int_max := 0,
      int_mean := 0,
      int_median := 0,
      int_90 := 0,
      int_99 := 0,
      int_999 := 0,
      int_9999 := 0,
      int_99999 := 0 }

/-- A thread state holding a given recorded region, with every other
field cleared, used to state concrete scenarios. -/
def mk_thread (l : List interruption) : thread :=
  { interruptions := l, frc_start := 0, frc_stop := 0, sorted := [],
    runtime := 0, int_n := 0, int_total := 0, int_min := 0, int_max := 0,
    int_mean := 0, int_median := 0, int_90 := 0, int_99 := 0, int_999 := 0,
    int_9999 := 0, int_99999 := 0 }

/-- A thread state with an empty recorded region but nonzero garbage in
the derived statistic fields, to exhibit that the statistics engine
zeroes them. -/
def empty_thread : thread :=
  { interruptions := [], frc_start := 3, frc_stop := 10, sorted := [],
    runtime := 9, int_n := 9, int_total := 9, int_min := 9, int_max := 9,
    int_mean := 9, int_median := 9, int_90 := 9, int_99 := 9, int_999 := 9,
    int_9999 := 9, int_99999 := 9 }

/-- A thread state whose recorded region holds one hundred records with
gaps 1 to 100 cycles, the scenario named by the specification. -/
def demo_ramp : thread :=
  mk_thread ((List.range 100).map fun k => ⟨k, k + 1⟩)

/-- Post-run validation, function post_test_checks (sysjitter.c lines
391-412), applied to the recorded regions of all threads: when some
thread filled its buffer the process prints which threads overflowed and
exits with status 2, modelled as some 2; otherwise it returns normally,
modelled as none. -/
def post_test_checks (bufs : List (List interruption)) (cap : Nat) :
    Option Nat :=
  if bufs.any (fun b => b.length == cap) then some 2 else none

/-- Adaptive buffer sizing, function calc_max_interruptions (sysjitter.c
lines 587-609): take the largest record count over all threads, divide by
the calibration run duration g.runtime_secs, raise the result to the
floor of 1000 per second, and size the full-run buffer at twice that
rate times the full run duration. -/
def calc_max_interruptions (bufs : List (List interruption))
    (calib_secs full_secs : Nat) : Nat :=
  let m := bufs.foldl (fun acc b => max acc b.length) 0
  let per_sec := m / calib_secs
  let per_sec2 := if per_sec < 1000 then 1000 else per_sec
  per_sec2 * 2 * full_secs

/-- The side-effecting steps of function thread_main (sysjitter.c lines
289-328). -/
inductive tm_event where
  | move_to_core
  | thread_init_buffers
  | inc_started
  | wait_for_go
  | measure_cpu_mhz
  | inc_running
  | spin_running_barrier
  | frc_start_read
  | run_doit
  | frc_stop_read
  | inc_finished
  | spin_finished_barrier
deriving DecidableEq, BEq

/-- The steps of thread_main in program order: pin to the assigned core,
allocate and touch the buffers, increment n_threads_started, sleep-poll
while the command is WAIT, calibrate the cycle-counter frequency,
increment n_threads_running, spin until every thread runs, read the
start stamp, sample, read the stop stamp, increment n_threads_finished,
spin until every thread has finished. -/
def thread_main_events : List tm_event :=
  [ .move_to_core, .thread_init_buffers, .inc_started, .wait_for_go,
    .measure_cpu_mhz, .inc_running, .spin_running_barrier, .frc_start_read,
    .run_doit, .frc_stop_read, .inc_finished, .spin_finished_barrier ]

/-- Position of a step in the thread_main program order. -/
def event_index (e : tm_event) : Nat :=
  thread_main_events.indexOf e

theorem sub64_eq_of_le {a b : Nat} (hb : b ≤ a) (ha : a < w64) :
    sub64 a b = a - b := by
  simp only [sub64, w64] at *
  omega

theorem doit_buf_eq (thr cap : Nat) : ∀ (reads : List Nat) (prev : Nat)
    (buf : List interruption) (tot : Nat), buf.length < cap →
    (doit reads prev thr cap buf tot).1 =
      (buf ++ gap_stream reads prev thr).take cap := by
  intro reads
  induction reads with
  | nil =>
    intro prev buf tot h
    simp [doit, gap_stream, List.take_of_length_le (Nat.le_of_lt h)]
  | cons ts rest ih =>
    intro prev buf tot h
    simp only [doit, gap_stream]
    by_cases hq : thr ≤ sub64 ts prev
    · rw [if_pos hq, if_pos hq]
      by_cases hful :
          (buf ++ [(⟨ts, sub64 ts prev⟩ : interruption)]).length = cap
      · rw [if_pos hful]
        have hsplit :
            buf ++ (⟨ts, sub64 ts prev⟩ : interruption) ::
                gap_stream rest ts thr =
              (buf ++ [(⟨ts, sub64 ts prev⟩ : interruption)]) ++
                gap_stream rest ts thr := by
          simp
        rw [hsplit, List.take_append_eq_append_take,
          List.take_of_length_le (Nat.le_of_eq hful), hful]
        simp
      · rw [if_neg hful]
        have hlt :
            (buf ++ [(⟨ts, sub64 ts prev⟩ : interruption)]).length < cap := by
          simp only [List.length_append, List.length_singleton] at hful ⊢
          omega
        rw [ih ts _ _ hlt]
        simp
    · rw [if_neg hq, if_neg hq]
      exact ih ts buf tot h

theorem gap_stream_threshold (thr : Nat) : ∀ (reads : List Nat) (prev : Nat)
    (r : interruption), r ∈ gap_stream reads prev thr → thr ≤ r.diff := by
  intro reads
  induction reads with
  | nil => intro prev r hr; simp [gap_stream] at hr
  | cons ts rest ih =>
    intro prev r hr
    simp only [gap_stream] at hr
    by_cases hq : thr ≤ sub64 ts prev
    · rw [if_pos hq] at hr
      rcases List.mem_cons.mp hr with rfl | hr2
      · exact hq
      · exact ih ts r hr2
    · rw [if_neg hq] at hr
      exact ih ts r hr

theorem doit_total_eq (thr cap : Nat) : ∀ (reads : List Nat) (prev : Nat)
    (buf : List interruption) (tot : Nat), tot = sum_diffs buf % w64 →
    (doit reads prev thr cap buf tot).2 =
      sum_diffs (doit reads prev thr cap buf tot).1 % w64 := by
  intro reads
  induction reads with
  | nil => intro prev buf tot h; simpa [doit] using h
  | cons ts rest ih =>
    intro prev buf tot h
    simp only [doit]
    by_cases hq : thr ≤ sub64 ts prev
    · rw [if_pos hq]
      have hstep :
          (tot + sub64 ts prev) % w64 =
            sum_diffs (buf ++ [(⟨ts, sub64 ts prev⟩ : interruption)]) % w64 := by
        rw [h]
        simp [sum_diffs, Nat.mod_add_mod]
      by_cases hful :
          (buf ++ [(⟨ts, sub64 ts prev⟩ : interruption)]).length = cap
      · rw [if_pos hful]
        exact hstep
      · rw [if_neg hful]
        exact ih ts _ _ hstep
    · rw [if_neg hq]
      exact ih ts buf tot h

/-- Claim C1: a record is appended by the sampling loop exactly when the
computed uint64 gap between consecutive cycle reads reaches the
threshold, while capacity remains: the recorded region equals the stream
of qualifying records truncated at the buffer capacity, and consequently
every recorded interruption has a gap at least the threshold. -/
theorem doit_appends_exactly_threshold_gaps (reads : List Nat)
    (prev thr cap : Nat) (hcap : 1 ≤ cap) :
    (doit reads prev thr cap [] 0).1 = (gap_stream reads prev thr).take cap
    ∧ ∀ r ∈ (doit reads prev thr cap [] 0).1, thr ≤ r.diff := by
  have hbuf := doit_buf_eq thr cap reads prev [] 0 (by simpa using hcap)
  simp only [List.nil_append] at hbuf
  refine ⟨hbuf, ?_⟩
  intro r hr
  rw [hbuf] at hr
  exact gap_stream_threshold thr reads prev r
    ((List.take_sublist _ _).mem hr)

theorem doit_appends_exactly_threshold_gaps_witness :
    (1 : Nat) ≤ 2 ∧
    ((doit [100, 103, 260] 0 50 2 [] 0).1 =
        (gap_stream [100, 103, 260] 0 50).take 2
      ∧ ∀ r ∈ (doit [100, 103, 260] 0 50 2 [] 0).1, 50 ≤ r.diff) :=
  ⟨by decide, doit_appends_exactly_threshold_gaps [100, 103, 260] 0 50 2
    (by decide)⟩

/-- Claim C2: the recorded count never exceeds the configured capacity,
and the post-run validation reports the fatal overflow outcome, exit
status 2, exactly when some thread filled its buffer to capacity. -/
theorem doit_capacity_bounded_and_overflow_reported (reads : List Nat)
    (prev thr cap : Nat) (bufs : List (List interruption)) (hcap : 1 ≤ cap) :
    (doit reads prev thr cap [] 0).1.length ≤ cap
    ∧ (post_test_checks bufs cap = some 2 ↔ ∃ b ∈ bufs, b.length = cap) := by
  constructor
  · have hbuf := doit_buf_eq thr cap reads prev [] 0 (by simpa using hcap)
    simp only [List.nil_append] at hbuf
    rw [hbuf]
    simp [List.length_take]
  · simp only [post_test_checks]
    split
    next h =>
      simp only [List.any_eq_true, beq_iff_eq] at h
      simpa using h
    next h =>
      simp only [List.any_eq_true, beq_iff_eq] at h
      simpa using h

theorem doit_capacity_bounded_and_overflow_reported_witness :
    (1 : Nat) ≤ 2 ∧
    ((doit [100, 103, 260, 400] 0 50 2 [] 0).1.length ≤ 2
      ∧ (post_test_checks [[⟨100, 100⟩], [⟨100, 100⟩, ⟨260, 157⟩]] 2 = some 2 ↔
          ∃ b ∈ [[(⟨100, 100⟩ : interruption)],
            [⟨100, 100⟩, ⟨260, 157⟩]], b.length = 2)) :=
  ⟨by decide, doit_capacity_bounded_and_overflow_reported
    [100, 103, 260, 400] 0 50 2 [[⟨100, 100⟩], [⟨100, 100⟩, ⟨260, 157⟩]]
    (by decide)⟩

/-- Claim C5: after the sampling loop completes, the accumulated total
int_total equals the sum of the gaps of all appended records, in exact
unsigned 64-bit arithmetic, that is modulo 2 to the power 64. -/
theorem doit_int_total_eq_sum_of_gaps (reads : List Nat)
    (prev thr cap : Nat) :
    (doit reads prev thr cap [] 0).2 =
      sum_diffs (doit reads prev thr cap [] 0).1 % w64 :=
  doit_total_eq thr cap reads prev [] 0 (by simp [sum_diffs])

theorem mem_insert_le (le : interruption → interruption → Bool)
    (x y : interruption) : ∀ (l : List interruption),
    y ∈ insert_le le x l ↔ y = x ∨ y ∈ l := by
  intro l
  induction l with
  | nil => simp [insert_le]
  | cons z zs ih =>
    simp only [insert_le]
    by_cases h : le x z = true
    · rw [if_pos h]
      simp [List.mem_cons]
    · rw [if_neg h]
      simp only [List.mem_cons, ih]
      tauto

theorem insert_le_length (le : interruption → interruption → Bool)
    (x : interruption) : ∀ (l : List interruption),
    (insert_le le x l).length = l.length + 1 := by
  intro l
  induction l with
  | nil => simp [insert_le]
  | cons z zs ih =>
    simp only [insert_le]
    by_cases h : le x z = true
    · rw [if_pos h]; simp
    · rw [if_neg h]; simp [ih]

theorem sort_le_length (le : interruption → interruption → Bool) :
    ∀ (l : List interruption), (sort_le le l).length = l.length := by
  intro l
  induction l with
  | nil => rfl
  | cons x xs ih => simp [sort_le, insert_le_length, ih]

theorem mem_sort_le (le : interruption → interruption → Bool)
    (y : interruption) : ∀ (l : List interruption),
    y ∈ sort_le le l ↔ y ∈ l := by
  intro l
  induction l with
  | nil => simp [sort_le]
  | cons x xs ih =>
    simp only [sort_le, mem_insert_le, List.mem_cons, ih]

theorem cmp_le_eq_gap_le (a b : interruption)
    (ha : a.diff < 2147483648) (hb : b.diff < 2147483648) :
    cmp_le a b = gap_le a b := by
  simp only [cmp_le, gap_le]
  rw [decide_eq_decide]
  simp only [qsort_cmp_interruption, to_int32, sub64, w64, w32]
  split <;> omega

theorem insert_le_congr (le1 le2 : interruption → interruption → Bool)
    (x : interruption) : ∀ (l : List interruption),
    (∀ y ∈ l, le1 x y = le2 x y) →
    insert_le le1 x l = insert_le le2 x l := by
  intro l
  induction l with
  | nil => intro h; rfl
  | cons z zs ih =>
    intro h
    simp only [insert_le]
    rw [h z (List.mem_cons_self z zs)]
    by_cases h2 : le2 x z = true
    · rw [if_pos h2, if_pos h2]
    · rw [if_neg h2, if_neg h2,
        ih (fun y hy => h y (List.mem_cons_of_mem z hy))]

theorem sort_le_congr (le1 le2 : interruption → interruption → Bool) :
    ∀ (l : List interruption), (∀ a ∈ l, ∀ b ∈ l, le1 a b = le2 a b) →
    sort_le le1 l = sort_le le2 l := by
  intro l
  induction l with
  | nil => intro h; rfl
  | cons x xs ih =>
    intro h
    simp only [sort_le]
    rw [ih (fun a ha b hb =>
      h a (List.mem_cons_of_mem x ha) b (List.mem_cons_of_mem x hb))]
    exact insert_le_congr le1 le2 x (sort_le le2 xs) (fun y hy =>
      h x (List.mem_cons_self x xs) y
        (List.mem_cons_of_mem x ((mem_sort_le le2 y xs).mp hy)))

theorem sort_interruptions_eq_spec (l : List interruption)
    (hb : ∀ r ∈ l, r.diff < 2147483648) :
    sort_interruptions l = spec_sorted_by_gap l :=
  sort_le_congr cmp_le gap_le l (fun a ha b hb2 =>
    cmp_le_eq_gap_le a b (hb a ha) (hb b hb2))

theorem pairwise_insert_le (x : interruption) : ∀ (l : List interruption),
    List.Pairwise (fun a b : interruption => a.diff ≤ b.diff) l →
    List.Pairwise (fun a b : interruption => a.diff ≤ b.diff)
      (insert_le gap_le x l) := by
  intro l
  induction l with
  | nil => intro h; simp [insert_le]
  | cons y ys ih =>
    intro h
    rcases List.pairwise_cons.mp h with ⟨hy, hys⟩
    simp only [insert_le]
    by_cases hxy : gap_le x y = true
    · rw [if_pos hxy]
      have hxy2 : x.diff ≤ y.diff := by simpa [gap_le] using hxy
      refine List.pairwise_cons.mpr ⟨?_, h⟩
      intro z hz
      rcases List.mem_cons.mp hz with rfl | hz2
      · exact hxy2
      · exact le_trans hxy2 (hy z hz2)
    · rw [if_neg hxy]
      have hyx : y.diff ≤ x.diff := by
        have h3 : ¬ x.diff ≤ y.diff := by simpa [gap_le] using hxy
        omega
      refine List.pairwise_cons.mpr ⟨?_, ih hys⟩
      intro z hz
      rcases (mem_insert_le gap_le x z ys).mp hz with rfl | hz2
      · exact hyx
      · exact hy z hz2

theorem pairwise_spec_sorted : ∀ (l : List interruption),
    List.Pairwise (fun a b : interruption => a.diff ≤ b.diff)
      (spec_sorted_by_gap l) := by
  intro l
  induction l with
  | nil => simp [spec_sorted_by_gap, sort_le]
  | cons x xs ih =>
    simp only [spec_sorted_by_gap, sort_le] at ih ⊢
    exact pairwise_insert_le x _ ih

theorem sorted_getD_mono (l : List interruption)
    (h : List.Pairwise (fun a b : interruption => a.diff ≤ b.diff) l)
    (i j : Nat) (hij : i ≤ j) (hj : j < l.length) :
    (l.getD i ⟨0, 0⟩).diff ≤ (l.getD j ⟨0, 0⟩).diff := by
  rcases Nat.eq_or_lt_of_le hij with rfl | hlt
  · exact le_refl _
  · have hi : i < l.length := lt_trans hlt hj
    rw [List.getD_eq_get?, List.getD_eq_get?, List.get?_eq_get hi,
      List.get?_eq_get hj]
    simp only [Option.getD_some]
    exact List.pairwise_iff_get.mp h ⟨i, hi⟩ ⟨j, hj⟩ hlt

theorem div_scale_le (n a b c d : Nat) (hb : 0 < b) (hd : 0 < d)
    (h : a * d ≤ c * b) : n * a / b ≤ n * c / d := by
  rw [Nat.le_div_iff_mul_le hd]
  have h1 : n * a / b * d * b ≤ n * a * d := by
    have h0 := Nat.div_mul_le_self (n * a) b
    calc n * a / b * d * b = n * a / b * b * d := by ring
      _ ≤ n * a * d := Nat.mul_le_mul_right d h0
  have h2 : n * a * d ≤ n * c * b := by
    calc n * a * d = n * (a * d) := by ring
      _ ≤ n * (c * b) := Nat.mul_le_mul_left n h
      _ = n * c * b := by ring
  exact Nat.le_of_mul_le_mul_right (le_trans h1 h2) hb

theorem thread_calc_stats_fields (t : thread) (hne : t.interruptions ≠ [])
    (hb : ∀ r ∈ t.interruptions, r.diff < 2147483648) :
    (thread_calc_stats t).int_min =
      ((spec_sorted_by_gap t.interruptions).getD 0 ⟨0, 0⟩).diff
    ∧ (thread_calc_stats t).int_median =
      ((spec_sorted_by_gap t.interruptions).getD
        (t.interruptions.length / 2) ⟨0, 0⟩).diff
    ∧ (thread_calc_stats t).int_90 =
      ((spec_sorted_by_gap t.interruptions).getD
        (t.interruptions.length * 9 / 10) ⟨0, 0⟩).diff
    ∧ (thread_calc_stats t).int_99 =
      ((spec_sorted_by_gap t.interruptions).getD
        (t.interruptions.length * 99 / 100) ⟨0, 0⟩).diff
    ∧ (thread_calc_stats t).int_999 =
      ((spec_sorted_by_gap t.interruptions).getD
        (t.interruptions.length * 999 / 1000) ⟨0, 0⟩).diff
    ∧ (thread_calc_stats t).int_9999 =
      ((spec_sorted_by_gap t.interruptions).getD
        (t.interruptions.length * 9999 / 10000) ⟨0, 0⟩).diff
    ∧ (thread_calc_stats t).int_99999 =
      ((spec_sorted_by_gap t.interruptions).getD
        (t.interruptions.length * 99999 / 100000) ⟨0, 0⟩).diff
    ∧ (thread_calc_stats t).int_max =
      ((spec_sorted_by_gap t.interruptions).getD
        (t.interruptions.length - 1) ⟨0, 0⟩).diff := by
  have hn : t.interruptions.length ≠ 0 := by
    simpa [List.length_eq_zero] using hne
  have hs := sort_interruptions_eq_spec t.interruptions hb
  simp [thread_calc_stats, hn, hs]

/-- Claim C3 counterexample: for the two-record buffer with gaps 2 ^ 32
and 0 cycles, the comparator result, a uint64 difference cast to int,
is zero for both orders of the pair, so the code leaves the pair
unsorted; the reported median is not the gap at index floor(2 * 0.5) = 1
of the records sorted ascending by gap, which would be 2 ^ 32. -/
theorem percentile_index_counterexample :
    ¬ ((thread_calc_stats
          (mk_thread [⟨10, 4294967296⟩, ⟨20, 0⟩])).int_median =
        ((spec_sorted_by_gap [⟨10, 4294967296⟩, ⟨20, 0⟩]).getD 1
          ⟨0, 0⟩).diff) := by
  decide

/-- Claim C3 amended: for every nonempty buffer all of whose gaps are
below 2 ^ 31 cycles, so that the int cast in the comparator is exact,
each reported percentile statistic equals the gap value at the 0-based
index floor of n times p of the records sorted ascending by gap, for p
equal to 0.5, 0.9, 0.99, 0.999, 0.9999 and 0.99999. -/
theorem percentiles_nearest_rank_of_bounded_gaps (t : thread)
    (hne : t.interruptions ≠ [])
    (hb : ∀ r ∈ t.interruptions, r.diff < 2147483648) :
    (thread_calc_stats t).int_median =
      ((spec_sorted_by_gap t.interruptions).getD
        (t.interruptions.length / 2) ⟨0, 0⟩).diff
    ∧ (thread_calc_stats t).int_90 =
      ((spec_sorted_by_gap t.interruptions).getD
        (t.interruptions.length * 9 / 10) ⟨0, 0⟩).diff
    ∧ (thread_calc_stats t).int_99 =
      ((spec_sorted_by_gap t.interruptions).getD
        (t.interruptions.length * 99 / 100) ⟨0, 0⟩).diff
    ∧ (thread_calc_stats t).int_999 =
      ((spec_sorted_by_gap t.interruptions).getD
        (t.interruptions.length * 999 / 1000) ⟨0, 0⟩).diff
    ∧ (thread_calc_stats t).int_9999 =
      ((spec_sorted_by_gap t.interruptions).getD
        (t.interruptions.length * 9999 / 10000) ⟨0, 0⟩).diff
    ∧ (thread_calc_stats t).int_99999 =
      ((spec_sorted_by_gap t.interruptions).getD
        (t.interruptions.length * 99999 / 100000) ⟨0, 0⟩).diff := by
  obtain ⟨-, h2, h3, h4, h5, h6, h7, -⟩ := thread_calc_stats_fields t hne hb
  exact ⟨h2, h3, h4, h5, h6, h7⟩

theorem percentiles_nearest_rank_of_bounded_gaps_witness :
    demo_ramp.interruptions ≠ []
    ∧ (∀ r ∈ demo_ramp.interruptions, r.diff < 2147483648)
    ∧ ((thread_calc_stats demo_ramp).int_median =
        ((spec_sorted_by_gap demo_ramp.interruptions).getD
          (demo_ramp.interruptions.length / 2) ⟨0, 0⟩).diff
      ∧ (thread_calc_stats demo_ramp).int_90 =
        ((spec_sorted_by_gap demo_ramp.interruptions).getD
          (demo_ramp.interruptions.length * 9 / 10) ⟨0, 0⟩).diff
      ∧ (thread_calc_stats demo_ramp).int_99 =
        ((spec_sorted_by_gap demo_ramp.interruptions).getD
          (demo_ramp.interruptions.length * 99 / 100) ⟨0, 0⟩).diff
      ∧ (thread_calc_stats demo_ramp).int_999 =
        ((spec_sorted_by_gap demo_ramp.interruptions).getD
          (demo_ramp.interruptions.length * 999 / 1000) ⟨0, 0⟩).diff
      ∧ (thread_calc_stats demo_ramp).int_9999 =
        ((spec_sorted_by_gap demo_ramp.interruptions).getD
          (demo_ramp.interruptions.length * 9999 / 10000) ⟨0, 0⟩).diff
      ∧ (thread_calc_stats demo_ramp).int_99999 =
        ((spec_sorted_by_gap demo_ramp.interruptions).getD
          (demo_ramp.interruptions.length * 99999 / 100000) ⟨0, 0⟩).diff) :=
  ⟨by decide, by decide,
    percentiles_nearest_rank_of_bounded_gaps demo_ramp (by decide) (by decide)⟩

/-- Claim C4 counterexample: for the two-record buffer with gaps
2 ^ 32 + 7 and 7 cycles the comparator returns zero on the pair, the
code leaves the records unsorted, and the reported minimum 2 ^ 32 + 7
exceeds the reported median 7, refuting min less-or-equal median for
arbitrary uint64 gap values. -/
theorem percentile_monotonicity_counterexample :
    ¬ ((thread_calc_stats
          (mk_thread [⟨100, 4294967303⟩, ⟨200, 7⟩])).int_min ≤
        (thread_calc_stats
          (mk_thread [⟨100, 4294967303⟩, ⟨200, 7⟩])).int_median) := by
  decide

/-- Claim C4 amended: for every nonempty buffer all of whose gaps are
below 2 ^ 31 cycles, so that the int cast in the comparator is exact,
the computed statistics satisfy min less-or-equal median less-or-equal
p90 up through p99999 less-or-equal max. -/
theorem percentile_monotonicity_of_bounded_gaps (t : thread)
    (hne : t.interruptions ≠ [])
    (hb : ∀ r ∈ t.interruptions, r.diff < 2147483648) :
    (thread_calc_stats t).int_min ≤ (thread_calc_stats t).int_median
    ∧ (thread_calc_stats t).int_median ≤ (thread_calc_stats t).int_90
    ∧ (thread_calc_stats t).int_90 ≤ (thread_calc_stats t).int_99
    ∧ (thread_calc_stats t).int_99 ≤ (thread_calc_stats t).int_999
    ∧ (thread_calc_stats t).int_999 ≤ (thread_calc_stats t).int_9999
    ∧ (thread_calc_stats t).int_9999 ≤ (thread_calc_stats t).int_99999
    ∧ (thread_calc_stats t).int_99999 ≤ (thread_calc_stats t).int_max := by
  obtain ⟨h1, h2, h3, h4, h5, h6, h7, h8⟩ := thread_calc_stats_fields t hne hb
  set n := t.interruptions.length with hn_def
  have hn0 : 0 < n := by
    have hz : t.interruptions.length ≠ 0 := by
      simpa [List.length_eq_zero] using hne
    omega
  set S := spec_sorted_by_gap t.interruptions with hS_def
  have hlen : S.length = n := sort_le_length gap_le t.interruptions
  have hpair := pairwise_spec_sorted t.interruptions
  rw [← hS_def] at hpair
  have i1 : n / 2 ≤ n * 9 / 10 := by
    have h0 := div_scale_le n 1 2 9 10 (by norm_num) (by norm_num)
      (by norm_num)
    simpa using h0
  have i2 : n * 9 / 10 ≤ n * 99 / 100 :=
    div_scale_le n 9 10 99 100 (by norm_num) (by norm_num) (by norm_num)
  have i3 : n * 99 / 100 ≤ n * 999 / 1000 :=
    div_scale_le n 99 100 999 1000 (by norm_num) (by norm_num) (by norm_num)
  have i4 : n * 999 / 1000 ≤ n * 9999 / 10000 :=
    div_scale_le n 999 1000 9999 10000 (by norm_num) (by norm_num)
      (by norm_num)
  have i5 : n * 9999 / 10000 ≤ n * 99999 / 100000 :=
    div_scale_le n 9999 10000 99999 100000 (by norm_num) (by norm_num)
      (by norm_num)
  have ilast : n * 99999 / 100000 ≤ n - 1 := by
    have hlt : n * 99999 / 100000 < n := by
      rw [Nat.div_lt_iff_lt_mul (by norm_num : (0 : ℕ) < 100000)]
      exact (Nat.mul_lt_mul_left hn0).mpr (by norm_num)
    omega
  have hbmed : n / 2 < n := Nat.div_lt_self hn0 (by norm_num)
  have hb90 : n * 9 / 10 < n := by
    have h0 := le_trans i2 (le_trans i3 (le_trans i4 (le_trans i5 ilast)))
    omega
  have hb99 : n * 99 / 100 < n := by
    have h0 := le_trans i3 (le_trans i4 (le_trans i5 ilast))
    omega
  have hb999 : n * 999 / 1000 < n := by
    have h0 := le_trans i4 (le_trans i5 ilast)
    omega
  have hb9999 : n * 9999 / 10000 < n := by
    have h0 := le_trans i5 ilast
    omega
  have hb99999 : n * 99999 / 100000 < n := by omega
  have hbmax : n - 1 < n := by omega
  refine ⟨?_, ?_, ?_, ?_, ?_, ?_, ?_⟩
  · rw [h1, h2]
    exact sorted_getD_mono S hpair 0 (n / 2) (Nat.zero_le _)
      (by rw [hlen]; exact hbmed)
  · rw [h2, h3]
    exact sorted_getD_mono S hpair (n / 2) (n * 9 / 10) i1
      (by rw [hlen]; exact hb90)
  · rw [h3, h4]
    exact sorted_getD_mono S hpair (n * 9 / 10) (n * 99 / 100) i2
      (by rw [hlen]; exact hb99)
  · rw [h4, h5]
    exact sorted_getD_mono S hpair (n * 99 / 100) (n * 999 / 1000) i3
      (by rw [hlen]; exact hb999)
  · rw [h5, h6]
    exact sorted_getD_mono S hpair (n * 999 / 1000) (n * 9999 / 10000) i4
      (by rw [hlen]; exact hb9999)
  · rw [h6, h7]
    exact sorted_getD_mono S hpair (n * 9999 / 10000) (n * 99999 / 100000)
      i5 (by rw [hlen]; exact hb99999)
  · rw [h7, h8]
    exact sorted_getD_mono S hpair (n * 99999 / 100000) (n - 1) ilast
      (by rw [hlen]; exact hbmax)

theorem percentile_monotonicity_of_bounded_gaps_witness :
    (mk_thread [⟨1, 5⟩, ⟨2, 3⟩, ⟨3, 8⟩, ⟨4, 1⟩]).interruptions ≠ []
    ∧ (∀ r ∈ (mk_thread [⟨1, 5⟩, ⟨2, 3⟩, ⟨3, 8⟩, ⟨4, 1⟩]).interruptions,
        r.diff < 2147483648)
    ∧ ((thread_calc_stats (mk_thread [⟨1, 5⟩, ⟨2, 3⟩, ⟨3, 8⟩, ⟨4, 1⟩])).int_min ≤
        (thread_calc_stats (mk_thread [⟨1, 5⟩, ⟨2, 3⟩, ⟨3, 8⟩, ⟨4, 1⟩])).int_median
      ∧ (thread_calc_stats (mk_thread [⟨1, 5⟩, ⟨2, 3⟩, ⟨3, 8⟩, ⟨4, 1⟩])).int_median ≤
        (thread_calc_stats (mk_thread [⟨1, 5⟩, ⟨2, 3⟩, ⟨3, 8⟩, ⟨4, 1⟩])).int_90
      ∧ (thread_calc_stats (mk_thread [⟨1, 5⟩, ⟨2, 3⟩, ⟨3, 8⟩, ⟨4, 1⟩])).int_90 ≤
        (thread_calc_stats (mk_thread [⟨1, 5⟩, ⟨2, 3⟩, ⟨3, 8⟩, ⟨4, 1⟩])).int_99
      ∧ (thread_calc_stats (mk_thread [⟨1, 5⟩, ⟨2, 3⟩, ⟨3, 8⟩, ⟨4, 1⟩])).int_99 ≤
        (thread_calc_stats (mk_thread [⟨1, 5⟩, ⟨2, 3⟩, ⟨3, 8⟩, ⟨4, 1⟩])).int_999
      ∧ (thread_calc_stats (mk_thread [⟨1, 5⟩, ⟨2, 3⟩, ⟨3, 8⟩, ⟨4, 1⟩])).int_999 ≤
        (thread_calc_stats (mk_thread [⟨1, 5⟩, ⟨2, 3⟩, ⟨3, 8⟩, ⟨4, 1⟩])).int_9999
      ∧ (thread_calc_stats (mk_thread [⟨1, 5⟩, ⟨2, 3⟩, ⟨3, 8⟩, ⟨4, 1⟩])).int_9999 ≤
        (thread_calc_stats (mk_thread [⟨1, 5⟩, ⟨2, 3⟩, ⟨3, 8⟩, ⟨4, 1⟩])).int_99999
      ∧ (thread_calc_stats (mk_thread [⟨1, 5⟩, ⟨2, 3⟩, ⟨3, 8⟩, ⟨4, 1⟩])).int_99999 ≤
        (thread_calc_stats (mk_thread [⟨1, 5⟩, ⟨2, 3⟩, ⟨3, 8⟩, ⟨4, 1⟩])).int_max) :=
  ⟨by decide, by decide,
    percentile_monotonicity_of_bounded_gaps
      (mk_thread [⟨1, 5⟩, ⟨2, 3⟩, ⟨3, 8⟩, ⟨4, 1⟩]) (by decide) (by decide)⟩

/-- Claim C6: applied to a thread whose recorded region is empty, the
statistics engine sets every derived statistic, count, min, max, mean,
median and every percentile, to zero; in the model the computation is a
total function, mirroring that the C code takes the branch that performs
no buffer indexing and no division. -/
theorem thread_calc_stats_empty_all_zero (t : thread)
    (h : t.interruptions = []) :
    (thread_calc_stats t).int_n = 0
    ∧ (thread_calc_stats t).int_min = 0
    ∧ (thread_calc_stats t).int_max = 0
    ∧ (thread_calc_stats t).int_mean = 0
    ∧ (thread_calc_stats t).int_median = 0
    ∧ (thread_calc_stats t).int_90 = 0
    ∧ (thread_calc_stats t).int_99 = 0
    ∧ (thread_calc_stats t).int_999 = 0
    ∧ (thread_calc_stats t).int_9999 = 0
    ∧ (thread_calc_stats t).int_99999 = 0 := by
  simp [thread_calc_stats, h]

theorem thread_calc_stats_empty_all_zero_witness :
    empty_thread.interruptions = []
    ∧ ((thread_calc_stats empty_thread).int_n = 0
      ∧ (thread_calc_stats empty_thread).int_min = 0
      ∧ (thread_calc_stats empty_thread).int_max = 0
      ∧ (thread_calc_stats empty_thread).int_mean = 0
      ∧ (thread_calc_stats empty_thread).int_median = 0
      ∧ (thread_calc_stats empty_thread).int_90 = 0
      ∧ (thread_calc_stats empty_thread).int_99 = 0
      ∧ (thread_calc_stats empty_thread).int_999 = 0
      ∧ (thread_calc_stats empty_thread).int_9999 = 0
      ∧ (thread_calc_stats empty_thread).int_99999 = 0) :=
  ⟨by decide, thread_calc_stats_empty_all_zero empty_thread (by decide)⟩

/-- Claim C10: computing statistics leaves the raw data unchanged: the
recorded region, which also encodes the buffer cursor as its length, and
the start and stop stamps are exactly as they were, and applying the
statistics engine twice yields the same state as applying it once, since
the second run recomputes every derived field, including the sorted
array, from the unchanged records. -/
theorem thread_calc_stats_preserves_records_and_idempotent (t : thread) :
    (thread_calc_stats t).interruptions = t.interruptions
    ∧ (thread_calc_stats t).frc_start = t.frc_start
    ∧ (thread_calc_stats t).frc_stop = t.frc_stop
    ∧ thread_calc_stats (thread_calc_stats t) = thread_calc_stats t := by
  cases t with
  | mk ints fs fe so rt n tot mn mx me md p90 p99 p999 p9999 p99999 =>
    by_cases h : ints.length = 0 <;>
      simp [thread_calc_stats, h]

theorem max_div (a b s : Nat) :
    max a b / s = max (a / s) (b / s) := by
  rcases Nat.le_total a b with h | h
  · rw [max_eq_right h, max_eq_right (Nat.div_le_div_right h)]
  · rw [max_eq_left h, max_eq_left (Nat.div_le_div_right h)]

theorem foldl_max_div (s : Nat) : ∀ (l : List Nat) (a : Nat),
    (l.foldl max a) / s = (l.map (· / s)).foldl max (a / s) := by
  intro l
  induction l with
  | nil => intro a; rfl
  | cons x xs ih =>
    intro a
    simp only [List.foldl_cons, List.map_cons]
    rw [ih, max_div]

theorem foldl_max_length : ∀ (l : List (List interruption)) (a : Nat),
    l.foldl (fun acc b => max acc b.length) a =
      (l.map List.length).foldl max a := by
  intro l
  induction l with
  | nil => intro a; rfl
  | cons x xs ih =>
    intro a
    simp only [List.foldl_cons, List.map_cons]
    rw [ih]

/-- Claim C7: the full-run buffer capacity is two times the maximum of
the observed per-second interruption rate and the floor of 1000 per
second, times the full run duration, where the observed rate is the
maximum over threads of the truncated quotient of record count by the
calibration runtime; in particular whenever the peak observed rate is
below 1000 per second the floor of 1000 per second is used.  The code
divides the maximum count by the runtime rather than maximising the
per-thread quotients, but truncated division is monotone, so the two
agree. -/
theorem calc_max_interruptions_formula (bufs : List (List interruption))
    (s r : Nat) (hs : 0 < s) :
    calc_max_interruptions bufs s r =
      2 * max ((bufs.map (fun b => b.length / s)).foldl max 0)
        1000 * r
    ∧ ((bufs.map (fun b => b.length / s)).foldl max 0 < 1000 →
        calc_max_interruptions bufs s r = 2 * 1000 * r) := by
  have hrate : (bufs.foldl (fun acc b => max acc b.length) 0) / s =
      (bufs.map (fun b => b.length / s)).foldl max 0 := by
    rw [foldl_max_length bufs 0, foldl_max_div s, Nat.zero_div,
      List.map_map]
    rfl
  constructor
  · simp only [calc_max_interruptions]
    rw [hrate]
    by_cases hlt :
        (bufs.map (fun b => b.length / s)).foldl max 0 < 1000
    · rw [if_pos hlt, max_eq_right (le_of_lt hlt)]
    · rw [if_neg hlt, max_eq_left (le_of_not_lt hlt)]
      ring
  · intro hlt
    simp only [calc_max_interruptions]
    rw [hrate, if_pos hlt]

theorem calc_max_interruptions_formula_witness :
    (0 : Nat) < 1
    ∧ (calc_max_interruptions [List.replicate 500 ⟨0, 0⟩] 1 70 =
        2 * max (([List.replicate 500 (⟨0, 0⟩ : interruption)].map
          (fun b => b.length / 1)).foldl max 0) 1000 * 70
      ∧ (([List.replicate 500 (⟨0, 0⟩ : interruption)].map
          (fun b => b.length / 1)).foldl max 0 < 1000 →
        calc_max_interruptions [List.replicate 500 ⟨0, 0⟩] 1 70 =
          2 * 1000 * 70)) :=
  ⟨by decide, calc_max_interruptions_formula
    [List.replicate 500 ⟨0, 0⟩] 1 70 (by decide)⟩

/-- Claim C8 counterexample: in thread_main the frequency calibration
measure_cpu_mhz runs only after the started counter has been
incremented, not before: calibration sits at position 4 of the program
order while the started increment sits at position 2. -/
theorem thread_main_calibration_order_counterexample :
    ¬ (event_index .measure_cpu_mhz < event_index .inc_started) := by
  decide

/-- Claim C8 amended: each worker thread first pins itself to its
assigned core, then increments the started counter and sleep-polls for
the GO command, and only then calibrates its cycle-counter frequency;
the calibration precedes the increment of the running counter, hence the
synchronized-start barrier and all sampling. -/
theorem thread_main_event_order :
    event_index .move_to_core < event_index .inc_started
    ∧ event_index .inc_started < event_index .measure_cpu_mhz
    ∧ event_index .measure_cpu_mhz < event_index .inc_running
    ∧ event_index .inc_running < event_index .run_doit := by
  decide

theorem doit_extends_buf (thr cap : Nat) : ∀ (reads : List Nat)
    (prev : Nat) (buf : List interruption) (tot : Nat),
    buf <+: (doit reads prev thr cap buf tot).1 := by
  intro reads
  induction reads with
  | nil => intro prev buf tot; simp [doit]
  | cons ts rest ih =>
    intro prev buf tot
    simp only [doit]
    by_cases hq : thr ≤ sub64 ts prev
    · rw [if_pos hq]
      by_cases hful :
          (buf ++ [(⟨ts, sub64 ts prev⟩ : interruption)]).length = cap
      · rw [if_pos hful]
        exact List.prefix_append buf _
      · rw [if_neg hful]
        exact (List.prefix_append buf
          [(⟨ts, sub64 ts prev⟩ : interruption)]).trans (ih ts _ _)
    · rw [if_neg hq]
      exact ih ts buf tot

theorem doit_prefix_mono (thr cap : Nat) : ∀ (reads more : List Nat)
    (prev : Nat) (buf : List interruption) (tot : Nat),
    (doit reads prev thr cap buf tot).1 <+:
      (doit (reads ++ more) prev thr cap buf tot).1 := by
  intro reads
  induction reads with
  | nil =>
    intro more prev buf tot
    simpa [doit] using doit_extends_buf thr cap more prev buf tot
  | cons ts rest ih =>
    intro more prev buf tot
    simp only [List.cons_append, doit]
    by_cases hq : thr ≤ sub64 ts prev
    · rw [if_pos hq, if_pos hq]
      by_cases hful :
          (buf ++ [(⟨ts, sub64 ts prev⟩ : interruption)]).length = cap
      · rw [if_pos hful, if_pos hful]
      · rw [if_neg hful, if_neg hful]
        exact ih more ts _ _
    · rw [if_neg hq, if_neg hq]
      exact ih more ts buf tot

theorem gap_stream_eq_true_gap_stream (thr : Nat) : ∀ (reads : List Nat)
    (prev : Nat), List.Chain (· ≤ ·) prev reads →
    (∀ x ∈ reads, x < w64) →
    gap_stream reads prev thr = true_gap_stream reads prev thr := by
  intro reads
  induction reads with
  | nil => intro prev h1 h2; rfl
  | cons ts rest ih =>
    intro prev h1 h2
    rcases List.chain_cons.mp h1 with ⟨hpt, hchain⟩
    have hts : ts < w64 := h2 ts (List.mem_cons_self ts rest)
    have hsub : sub64 ts prev = ts - prev := sub64_eq_of_le hpt hts
    simp only [gap_stream, true_gap_stream, hsub]
    by_cases hq : thr ≤ ts - prev
    · rw [if_pos hq, if_pos hq,
        ih ts hchain (fun x hx => h2 x (List.mem_cons_of_mem ts hx))]
    · rw [if_neg hq, if_neg hq]
      exact ih ts hchain (fun x hx => h2 x (List.mem_cons_of_mem ts hx))

theorem true_gap_stream_ts_sublist (thr : Nat) : ∀ (reads : List Nat)
    (prev : Nat),
    ((true_gap_stream reads prev thr).map interruption.ts).Sublist reads := by
  intro reads
  induction reads with
  | nil => intro prev; simp [true_gap_stream]
  | cons ts rest ih =>
    intro prev
    simp only [true_gap_stream]
    by_cases hq : thr ≤ ts - prev
    · rw [if_pos hq]
      simp only [List.map_cons]
      exact List.Sublist.cons₂ ts (ih ts)
    · rw [if_neg hq]
      exact List.Sublist.cons ts (ih ts)

/-- Claim C9: when each cycle-counter read is at least the previous one
and all reads are 64-bit values, the recorded region equals the
truncation at the capacity of the stream of qualifying records whose gap
field is the plain difference between the timestamp and the immediately
preceding read, the recorded timestamps are nondecreasing in buffer
order, and extending the read sequence only ever appends: the buffer
recorded for a read sequence is a prefix of the buffer recorded for any
extension of it, so records already appended are never modified. -/
theorem doit_monotone_reads_timestamps (reads : List Nat)
    (prev thr cap : Nat) (hchain : List.Chain (· ≤ ·) prev reads)
    (hw : ∀ x ∈ reads, x < w64) (hcap : 1 ≤ cap) :
    (doit reads prev thr cap [] 0).1 =
      (true_gap_stream reads prev thr).take cap
    ∧ List.Pairwise (· ≤ ·)
        ((doit reads prev thr cap [] 0).1.map interruption.ts)
    ∧ ∀ more : List Nat,
        (doit reads prev thr cap [] 0).1 <+:
          (doit (reads ++ more) prev thr cap [] 0).1 := by
  have hbuf := doit_buf_eq thr cap reads prev [] 0 (by simpa using hcap)
  simp only [List.nil_append] at hbuf
  have heq := gap_stream_eq_true_gap_stream thr reads prev hchain hw
  have h1 : (doit reads prev thr cap [] 0).1 =
      (true_gap_stream reads prev thr).take cap := by rw [hbuf, heq]
  refine ⟨h1, ?_, fun more => doit_prefix_mono thr cap reads more prev [] 0⟩
  rw [h1]
  have hsub : (((true_gap_stream reads prev thr).take cap).map
      interruption.ts).Sublist reads := by
    rw [List.map_take]
    exact (List.take_sublist cap _).trans
      (true_gap_stream_ts_sublist thr reads prev)
  have hpw : List.Pairwise (· ≤ ·) reads := by
    have hp : List.Pairwise (· ≤ ·) (prev :: reads) :=
      List.chain_iff_pairwise.mp hchain
    exact (List.pairwise_cons.mp hp).2
  exact List.Pairwise.sublist hsub hpw

theorem doit_monotone_reads_timestamps_witness :
    List.Chain (· ≤ ·) 5 [10, 70, 71, 200]
    ∧ (∀ x ∈ [10, 70, 71, 200], x < w64)
    ∧ (1 : Nat) ≤ 3
    ∧ ((doit [10, 70, 71, 200] 5 50 3 [] 0).1 =
        (true_gap_stream [10, 70, 71, 200] 5 50).take 3
      ∧ List.Pairwise (· ≤ ·)
          ((doit [10, 70, 71, 200] 5 50 3 [] 0).1.map interruption.ts)
      ∧ (doit [10, 70, 71, 200] 5 50 3 [] 0).1 <+:
          (doit ([10, 70, 71, 200] ++ [300]) 5 50 3 [] 0).1) :=
  ⟨by norm_num [List.chain_cons], by decide, by decide,
    (doit_monotone_reads_timestamps [10, 70, 71, 200] 5 50 3
      (by norm_num [List.chain_cons]) (by decide) (by decide)).1,
    (doit_monotone_reads_timestamps [10, 70, 71, 200] 5 50 3
      (by norm_num [List.chain_cons]) (by decide) (by decide)).2.1,
    (doit_monotone_reads_timestamps [10, 70, 71, 200] 5 50 3
      (by norm_num [List.chain_cons]) (by decide) (by decide)).2.2 [300]⟩

end Sysjitter
